import Mathlib

/-!
Verification of the video-split core of the `no-code-architects-toolkit`
repository, a shallow embedding of:

  * `services/v1/video/split.py` — `time_to_seconds`, `split_video`
  * `routes/v1/video/split.py`  — `video_split`

Modelling conventions:

  * Python `float` values are modelled by `PyFloat`: exact fractions
    (`PyFloat.toRat` gives the rational value) plus the IEEE special values
    `inf`, `-inf`, `nan`.  Binary64 rounding and overflow are idealized away
    (all numbers appearing in the development are exactly representable);
    IEEE comparison semantics (NaN incomparable) are kept.
  * Python's builtin string conversions `int(s)` / `float(s)` are modelled by
    `pyInt` / `pyFloat` over the documented grammar for ASCII input
    (optional surrounding whitespace, optional sign, underscore digit
    separators, decimal point, exponent, and the case-insensitive special
    spellings inf/infinity/nan).  Non-ASCII digits are out of scope.
  * External processes (`ffprobe`, `ffmpeg`), downloads and uploads are
    oracles: `ffprobe` is represented by its captured stdout text, each
    `ffmpeg` invocation by an `EncodeOutcome` (returncode and stderr) keyed
    by the original split index, and a call that raises at the Python level
    (e.g. the interpreter failing to spawn the process) by `Except.error`.
  * The local filesystem is a list of existing file paths threaded through
    the functions; `os.remove`/`os.path.exists` act on it.
-/

/-- Python `float` values: exact fractions plus IEEE special values.  A
finite value is an unnormalized fraction `num / den`; every producer in
this development (number parsing, arithmetic) keeps `den` a positive power
of ten, so ordering is integer cross-multiplication.  The numeric value is
recovered by `PyFloat.toRat`. -/
inductive PyFloat where
  | finite (num : ℤ) (den : ℕ)
  | inf
  | ninf
  | nan
deriving DecidableEq, Repr

namespace PyFloat

/-- The exact rational value of a finite Python float. -/
def toRat : PyFloat → Option ℚ
  | finite n d => some ((n : ℚ) / (d : ℚ))
  | _ => none

/-- IEEE `<` on Python floats: NaN is incomparable to everything; finite
fractions (positive denominators) compare by cross-multiplication. -/
def lt : PyFloat → PyFloat → Bool
  | finite a b, finite c d => a * (d : ℤ) < c * (b : ℤ)
  | finite _ _, inf => true
  | ninf, finite _ _ => true
  | ninf, inf => true
  | _, _ => false

/-- IEEE `>` on Python floats (`a > b` iff `b < a`, also for NaN). -/
def gt (a b : PyFloat) : Bool := lt b a

/-- Python `int + float` (the int is exact, the sum promotes to float). -/
def addIntL (n : ℤ) : PyFloat → PyFloat
  | finite a b => finite (n * (b : ℤ) + a) b
  | inf => inf
  | ninf => ninf
  | nan => nan

end PyFloat

/-- ASCII decimal digit test, as used by Python's number grammar. -/
def isPyDigit (c : Char) : Bool := '0' ≤ c && c ≤ '9'

/-- Consume a maximal run of ASCII digits with single underscores allowed
between digits (Python's digit-group grammar).  `v` and `n` accumulate the
value and the number of digits consumed; returns the value, the digit count
and the unconsumed rest. -/
def takeUDigits : List Char → ℕ → ℕ → ℕ × ℕ × List Char
  | [], v, n => (v, n, [])
  | c :: cs, v, n =>
    if isPyDigit c then
      takeUDigits cs (v * 10 + (c.toNat - 48)) (n + 1)
    else if c = '_' && n > 0 && (match cs with
        | c2 :: _ => isPyDigit c2
        | [] => false) then
      takeUDigits cs v n
    else
      (v, n, c :: cs)

/-- Split off an optional leading sign, returning `(-1 | 1, rest)`. -/
def takeSign : List Char → ℤ × List Char
  | '+' :: r => (1, r)
  | '-' :: r => (-1, r)
  | r => (1, r)

/-- ASCII whitespace in the sense of Python's `str.strip()`. -/
def isPySpace (c : Char) : Bool :=
  c = ' ' || c = '\t' || c = '\n' || c = '\r' || c = '\x0b' || c = '\x0c'

/-- Python `str.strip()` restricted to ASCII whitespace. -/
def pyStrip (s : String) : String :=
  ⟨((s.data.dropWhile isPySpace).reverse.dropWhile isPySpace).reverse⟩

/-- Python `int(s)` on a string: strip, optional sign, a nonempty
underscore-separated digit run consuming the whole remainder. -/
def pyInt (s : String) : Option ℤ :=
  let cs := (pyStrip s).data
  let (sign, cs1) := takeSign cs
  let (v, n, rest) := takeUDigits cs1 0 0
  if n > 0 && rest = [] then some (sign * v) else none

/-- Python `float(s)` on a string: strip, optional sign, then either a
case-insensitive special spelling (`inf`, `infinity`, `nan`) or a decimal
mantissa (at least one digit, optional point) with an optional exponent. -/
def pyFloat (s : String) : Option PyFloat :=
  let cs := (pyStrip s).data
  let (sign, cs1) := takeSign cs
  let low : String := ⟨cs1.map Char.toLower⟩
  if low = "inf" || low = "infinity" then
    some (if sign = 1 then PyFloat.inf else PyFloat.ninf)
  else if low = "nan" then
    some PyFloat.nan
  else
    let (ipart, icnt, r1) := takeUDigits cs1 0 0
    let (fpart, fcnt, r2) :=
      match r1 with
      | '.' :: r => takeUDigits r 0 0
      | r => (0, 0, r)
    if icnt + fcnt = 0 then none
    else
      let mnum : ℤ := sign * ((ipart : ℤ) * 10 ^ fcnt + (fpart : ℤ))
      let mden : ℕ := 10 ^ fcnt
      match r2 with
      | [] => some (PyFloat.finite mnum mden)
      | e :: r =>
        if e = 'e' || e = 'E' then
          let (esign, r3) := takeSign r
          let (ev, ecnt, r4) := takeUDigits r3 0 0
          if ecnt > 0 && r4 = [] then
            some (if esign = 1 then PyFloat.finite (mnum * 10 ^ ev) mden
              else PyFloat.finite mnum (mden * 10 ^ ev))
          else none
        else none

/-- Helper for `pySplit`: split the remaining characters at every `':'`,
`acc` holding the characters of the current field. -/
def pySplitAux : List Char → List Char → List String
  | [], acc => [String.mk acc]
  | c :: cs, acc =>
    if c = ':' then String.mk acc :: pySplitAux cs []
    else pySplitAux cs (acc ++ [c])

/-- Python `time_str.split(':')` (single-character separator): every
occurrence separates two fields, so `"".split(':') == [""]` and
`":".split(':') == ["", ""]`. -/
def pySplit (s : String) : List String := pySplitAux s.data []

/-- `time_to_seconds` (services/v1/video/split.py, lines 32-53): convert a
time string `HH:MM:SS[.mmm]`, `MM:SS[.mmm]` or bare seconds to seconds;
a failing conversion raises `ValueError` with the offending string and a
format hint, modelled by `Except.error`. -/
def time_to_seconds (time_str : String) : Except String PyFloat :=
  let err : Except String PyFloat :=
    Except.error ("Invalid time format: " ++ time_str ++ ". Expected HH:MM:SS[.mmm]")
  match pySplit time_str with
  | [hours, minutes, seconds] =>
    match pyInt hours, pyInt minutes, pyFloat seconds with
    | some h, some m, some s => Except.ok (PyFloat.addIntL (h * 3600 + m * 60) s)
    | _, _, _ => err
  | [minutes, seconds] =>
    match pyInt minutes, pyFloat seconds with
    | some m, some s => Except.ok (PyFloat.addIntL (m * 60) s)
    | _, _ => err
  | _ =>
    match pyFloat time_str with
    | some v => Except.ok v
    | none => err

deriving instance DecidableEq for Except

/-- One entry of the `splits` request list: `{"start": ..., "end": ...}`.
(`end` is a Lean keyword, hence the field name `end_`.) -/
structure SegmentRequest where
  start : String
  end_ : String
deriving DecidableEq, Repr

/-- One entry of the results list returned by `split_video`:
`{"status": ..., "output_file": ..., "error": ...}`. -/
structure SegmentResult where
  status : String
  output_file : Option String
  error : Option String
deriving DecidableEq, Repr

/-- Captured outcome of one completed `ffmpeg` invocation
(`subprocess.run`): its exit code and stderr text. -/
structure EncodeOutcome where
  returncode : ℤ
  stderr : String
deriving DecidableEq, Repr

/-- `os.path.splitext`: split off the extension after the last dot of the
basename, unless the basename consists only of leading dots. -/
def splitext (p : String) : String × String :=
  let cs := p.data
  let sepIdx : ℤ := match (cs.indexesOf '/').getLast? with
    | some i => (i : ℤ)
    | none => -1
  let dotIdx : ℤ := match (cs.indexesOf '.').getLast? with
    | some i => (i : ℤ)
    | none => -1
  if dotIdx > sepIdx then
    let base := cs.drop (sepIdx + 1).toNat
    if (base.takeWhile (· = '.')).length = (dotIdx - sepIdx).toNat then
      (p, "")
    else
      (⟨cs.take dotIdx.toNat⟩, ⟨cs.drop dotIdx.toNat⟩)
  else
    (p, "")

/-- `os.path.join(LOCAL_STORAGE_PATH, f"{job_id}_split_{split_index+1}{ext}")`
(services/v1/video/split.py, line 166). -/
def output_filename (storage job_id : String) (split_index : ℕ) (ext : String) : String :=
  storage ++ "/" ++ job_id ++ "_split_" ++ toString (split_index + 1) ++ ext

/-- The sentinel each result slot is initialized to
(services/v1/video/split.py, lines 96-103). -/
def unprocessed : SegmentResult :=
  { status := "error", output_file := none, error := some "Unprocessed" }

/-- `results = [{...} for _ in splits]`: one `unprocessed` sentinel per split. -/
def initial_results (splits : List SegmentRequest) : List SegmentResult :=
  splits.map fun _ => unprocessed

/-- The result recorded for a split rejected by the `start < end` check
(services/v1/video/split.py, lines 144-149). -/
def range_error_result (s : SegmentRequest) : SegmentResult :=
  { status := "error"
    output_file := none
    error := some ("Invalid split: start (" ++ s.start ++ ") must be before end ("
      ++ s.end_ ++ ") within duration") }

/-- Outcome of validating a single split: accepted with clamped bounds,
rejected by the range check, or a `ValueError` from `time_to_seconds`. -/
inductive SplitOutcome where
  | valid (startSec endSec : PyFloat)
  | invalidRange
  | parseError (msg : String)
deriving DecidableEq, Repr

/-- The per-split body of the validation loop
(services/v1/video/split.py, lines 129-156): parse `start`/`end`, clamp a
negative start to 0 and an end beyond `file_duration` down to it, then
accept iff `start_seconds < end_seconds`. -/
def validate_split (s : SegmentRequest) (file_duration : PyFloat) : SplitOutcome :=
  match time_to_seconds s.start with
  | Except.error e => SplitOutcome.parseError e
  | Except.ok start0 =>
    match time_to_seconds s.end_ with
    | Except.error e => SplitOutcome.parseError e
    | Except.ok end0 =>
      let start1 := if PyFloat.lt start0 (PyFloat.finite 0 1) then PyFloat.finite 0 1 else start0
      let end1 := if PyFloat.gt end0 file_duration then file_duration else end0
      if PyFloat.lt start1 end1 then SplitOutcome.valid start1 end1
      else SplitOutcome.invalidRange

/-- An element of `valid_splits`: `(i, start_seconds, end_seconds, split)`. -/
abbrev ValidSplit : Type := ℕ × PyFloat × PyFloat × SegmentRequest

/-- `for i, split in enumerate(splits)` (services/v1/video/split.py,
lines 128-156): thread the results list and the accepted `valid_splits`
through the loop; rejected splits overwrite `results[i]`, accepted ones are
appended to `valid_splits`. -/
def validate_loop (dur : PyFloat) :
    ℕ → List SegmentRequest → List SegmentResult → List ValidSplit →
    List SegmentResult × List ValidSplit
  | _, [], results, vs => (results, vs)
  | i, s :: rest, results, vs =>
    match validate_split s dur with
    | SplitOutcome.valid a b => validate_loop dur (i + 1) rest results (vs ++ [(i, a, b, s)])
    | SplitOutcome.invalidRange =>
        validate_loop dur (i + 1) rest (results.set i (range_error_result s)) vs
    | SplitOutcome.parseError msg =>
        validate_loop dur (i + 1) rest
          (results.set i { status := "error", output_file := none, error := some msg }) vs

/-- `file_duration` (services/v1/video/split.py, lines 117-124):
`float(duration_result.stdout.strip())`, falling back to 86400 when the
conversion raises. -/
def file_duration_from (stdout : String) : PyFloat :=
  match pyFloat (pyStrip stdout) with
  | some d => d
  | none => PyFloat.finite 86400 1

/-- The result recorded for an accepted split after its `ffmpeg` run
(services/v1/video/split.py, lines 184-199): a non-zero exit records an
error carrying the trimmed stderr, a zero exit records success with the
output path. -/
def encoded_slot (storage job_id ext : String) (p : EncodeOutcome) (split_index : ℕ) :
    SegmentResult :=
  if p.returncode ≠ 0 then
    { status := "error", output_file := none
      error := some ("FFmpeg error: " ++ pyStrip p.stderr) }
  else
    { status := "ok"
      output_file := some (output_filename storage job_id split_index ext)
      error := none }

/-- `for index, (split_index, ...) in enumerate(valid_splits)`
(services/v1/video/split.py, lines 165-200): run `ffmpeg` per accepted
split sequentially, overwriting `results[split_index]`.  `enc` is the
oracle for each invocation, keyed by the original split index; `Except.error`
models `subprocess.run` itself raising, which aborts the loop carrying the
partial results and filesystem (a successful encode creates its output
file). -/
def encode_loop (storage job_id ext : String) (enc : ℕ → Except String EncodeOutcome) :
    List ValidSplit → List SegmentResult → List String →
    List SegmentResult × List String × Option String
  | [], results, fs => (results, fs, none)
  | v :: rest, results, fs =>
    let split_index := v.1
    match enc split_index with
    | Except.error e => (results, fs, some e)
    | Except.ok p =>
      if p.returncode ≠ 0 then
        encode_loop storage job_id ext enc rest
          (results.set split_index (encoded_slot storage job_id ext p split_index)) fs
      else
        encode_loop storage job_id ext enc rest
          (results.set split_index (encoded_slot storage job_id ext p split_index))
          (fs ++ [output_filename storage job_id split_index ext])

/-- The body of the cleanup loop in the `except` handler of `split_video`
(services/v1/video/split.py, lines 213-218): `if r.get("status") == "ok":
of = r.get("output_file"); if of and os.path.exists(of): os.remove(of)`. -/
def remove_ok_output (acc : List String) (r : SegmentResult) : List String :=
  if r.status = "ok" then
    match r.output_file with
    | some of => if of ≠ "" && of ∈ acc then acc.filter (· ≠ of) else acc
    | none => acc
  else acc

/-- The `except` handler of `split_video` (services/v1/video/split.py,
lines 205-219): remove the source file if it exists, then remove every
output recorded with status `"ok"` (a present, truthy path) in results
order. -/
def cleanup_on_failure (input_filename : String) (results : List SegmentResult)
    (fs : List String) : List String :=
  let fs1 := if input_filename ∈ fs then fs.filter (· ≠ input_filename) else fs
  results.foldl remove_ok_output fs1

/-- `split_video` (services/v1/video/split.py, lines 55-219) after the
source has been acquired as `input_filename`: initialize the sentinel
results, probe the duration (`probe` is the `ffprobe` oracle — its stdout
on completion, `Except.error` when `subprocess.run` raises), validate every
split, return early when none is accepted, otherwise encode each accepted
split; any exception outside the per-split `try` runs the cleanup handler
and re-raises.  Returns the filesystem after the call together with
`(results, input_filename)` or the re-raised exception. -/
def split_video_run (storage : String) (splits : List SegmentRequest)
    (job_id input_filename : String) (probe : Except String String)
    (enc : ℕ → Except String EncodeOutcome) (fs : List String) :
    List String × Except String (List SegmentResult × String) :=
  let results := initial_results splits
  let ext := (splitext input_filename).2
  match probe with
  | Except.error e => (cleanup_on_failure input_filename results fs, Except.error e)
  | Except.ok stdout =>
    let dur := file_duration_from stdout
    let (results1, vs) := validate_loop dur 0 splits results []
    if vs = [] then
      (fs, Except.ok (results1, input_filename))
    else
      match encode_loop storage job_id ext enc vs results1 fs with
      | (results2, fs2, none) => (fs2, Except.ok (results2, input_filename))
      | (results2, fs2, some e) =>
          (cleanup_on_failure input_filename results2 fs2, Except.error e)

/-- One entry of the HTTP response list built by `video_split`
(routes/v1/video/split.py, lines 90-105): always carries the index and the
raw `start`/`end` of the request, plus either the uploaded `file_url` or an
`error` message. -/
structure ResponseItem where
  index : ℕ
  start : String
  end_ : String
  file_url : Option String
  error : Option String
deriving DecidableEq, Repr

/-- The body of the response loop (routes/v1/video/split.py, lines 91-105):
one item always carrying the index and the raw `start`/`end`; an `"ok"`
result with a truthy output path is uploaded (`upload` is the `upload_file`
oracle; `Except.error` models it raising) and its local output removed
(best effort) on success, an upload failure is recorded as
`"Upload failed: ..."`; anything else carries the result's error over. -/
def response_item (upload : String → Except String String) (idx : ℕ)
    (r : SegmentResult) (s : SegmentRequest) (fs : List String) :
    ResponseItem × List String :=
  let fallback : ResponseItem :=
    { index := idx, start := s.start, end_ := s.end_
      file_url := none, error := r.error }
  match r.output_file with
  | some of =>
    if r.status = "ok" ∧ of ≠ "" then
      match upload of with
      | Except.ok url =>
          ({ index := idx, start := s.start, end_ := s.end_
             file_url := some url, error := none },
           fs.filter (· ≠ of))
      | Except.error e =>
          ({ index := idx, start := s.start, end_ := s.end_
             file_url := none, error := some ("Upload failed: " ++ e) }, fs)
    else (fallback, fs)
  | none => (fallback, fs)

/-- `for idx, r in enumerate(results)` (routes/v1/video/split.py,
lines 90-106): build one response item per result via `response_item`.
The results are traversed zipped with the equal-length `splits` list, from
which `splits[idx]` supplies the raw timestamps. -/
def build_response (upload : String → Except String String) :
    ℕ → List (SegmentResult × SegmentRequest) → List String →
    List ResponseItem × List String
  | _, [], fs => ([], fs)
  | idx, (r, s) :: rest, fs =>
    let (item, fs1) := response_item upload idx r s fs
    let (items, fs2) := build_response upload (idx + 1) rest fs1
    (item :: items, fs2)

/-- `video_split` (routes/v1/video/split.py, lines 60-120) after payload
validation: run `split_video`; on a normal return build the per-segment
response, remove the input file (best effort) and answer 200; if
`split_video` raised, answer 500 with the exception text.  Returns the
filesystem after the call, the body (`Sum.inl` response list or `Sum.inr`
error string) and the status code. -/
def video_split_run (storage : String) (splits : List SegmentRequest)
    (job_id input_filename : String) (probe : Except String String)
    (enc : ℕ → Except String EncodeOutcome) (upload : String → Except String String)
    (fs : List String) :
    List String × (List ResponseItem ⊕ String) × ℕ :=
  match split_video_run storage splits job_id input_filename probe enc fs with
  | (fs1, Except.error e) => (fs1, Sum.inr e, 500)
  | (fs1, Except.ok (results, input1)) =>
    let (response, fs2) := build_response upload 0 (results.zip splits) fs1
    (fs2.filter (· ≠ input1), Sum.inl response, 200)

/-- Whether a validation outcome accepted the split. -/
def SplitOutcome.isValid : SplitOutcome → Bool
  | SplitOutcome.valid _ _ => true
  | _ => false

/-- What the validation pass leaves in a result slot whose previous content
was `orig`: accepted splits keep the sentinel, rejected ones get their
error record. -/
def validated_slot (dur : PyFloat) (orig : SegmentResult) (s : SegmentRequest) :
    SegmentResult :=
  match validate_split s dur with
  | SplitOutcome.valid _ _ => orig
  | SplitOutcome.invalidRange => range_error_result s
  | SplitOutcome.parseError msg =>
      { status := "error", output_file := none, error := some msg }

/-- The `valid_splits` list the validation loop accumulates, starting at
ordinal `i`. -/
def expected_valid (dur : PyFloat) : ℕ → List SegmentRequest → List ValidSplit
  | _, [] => []
  | i, s :: rest =>
    match validate_split s dur with
    | SplitOutcome.valid a b => (i, a, b, s) :: expected_valid dur (i + 1) rest
    | _ => expected_valid dur (i + 1) rest

/-- The final content of result slot `i` for request `s`, as a function of
that slot's own validation outcome and its own encode outcome only. -/
def expected_result (storage job_id ext : String) (dur : PyFloat)
    (pe : ℕ → EncodeOutcome) (i : ℕ) (s : SegmentRequest) : SegmentResult :=
  match validate_split s dur with
  | SplitOutcome.valid _ _ => encoded_slot storage job_id ext (pe i) i
  | SplitOutcome.invalidRange => range_error_result s
  | SplitOutcome.parseError msg =>
      { status := "error", output_file := none, error := some msg }

theorem validate_loop_length (dur : PyFloat) (l : List SegmentRequest) :
    ∀ (i : ℕ) (results : List SegmentResult) (vs : List ValidSplit),
      ((validate_loop dur i l results vs).1).length = results.length := by
  induction l with
  | nil => intro i results vs; simp [validate_loop]
  | cons s rest ih =>
    intro i results vs
    simp only [validate_loop]
    cases validate_split s dur <;> simp [ih]

theorem validate_loop_vs (dur : PyFloat) (l : List SegmentRequest) :
    ∀ (i : ℕ) (results : List SegmentResult) (vs : List ValidSplit),
      (validate_loop dur i l results vs).2 = vs ++ expected_valid dur i l := by
  induction l with
  | nil => intro i results vs; simp [validate_loop, expected_valid]
  | cons s rest ih =>
    intro i results vs
    simp only [validate_loop, expected_valid]
    cases validate_split s dur <;> simp [ih]

theorem validate_loop_get_lt (dur : PyFloat) (l : List SegmentRequest) :
    ∀ (i : ℕ) (results : List SegmentResult) (vs : List ValidSplit) (j : ℕ), j < i →
      ((validate_loop dur i l results vs).1)[j]? = results[j]? := by
  induction l with
  | nil => intro i results vs j _; simp [validate_loop]
  | cons s rest ih =>
    intro i results vs j hj
    have hij : i ≠ j := fun h => absurd (h ▸ hj) (lt_irrefl j)
    simp only [validate_loop]
    cases validate_split s dur with
    | valid a b => exact ih (i + 1) results _ j (Nat.lt_succ_of_lt hj)
    | invalidRange =>
        rw [ih (i + 1) _ _ j (Nat.lt_succ_of_lt hj), List.getElem?_set_ne hij]
    | parseError msg =>
        rw [ih (i + 1) _ _ j (Nat.lt_succ_of_lt hj), List.getElem?_set_ne hij]

theorem validate_loop_get (dur : PyFloat) (l : List SegmentRequest) :
    ∀ (i : ℕ) (results : List SegmentResult) (vs : List ValidSplit) (k : ℕ)
      (s : SegmentRequest), l[k]? = some s →
      ((validate_loop dur i l results vs).1)[i + k]? =
        (results[i + k]?).map (fun orig => validated_slot dur orig s) := by
  induction l with
  | nil => intro i results vs k s hk; simp at hk
  | cons s0 rest ih =>
    intro i results vs k s hk
    cases k with
    | zero =>
      simp only [List.getElem?_cons_zero, Option.some.injEq] at hk
      subst hk
      simp only [validate_loop, Nat.add_zero]
      cases hval : validate_split s0 dur with
      | valid a b =>
        rw [validate_loop_get_lt dur rest (i + 1) _ _ i (Nat.lt_succ_self i)]
        cases results[i]? <;> simp [validated_slot, hval]
      | invalidRange =>
        rw [validate_loop_get_lt dur rest (i + 1) _ _ i (Nat.lt_succ_self i),
          List.getElem?_set_self']
        cases results[i]? <;> simp [validated_slot, hval]
      | parseError msg =>
        rw [validate_loop_get_lt dur rest (i + 1) _ _ i (Nat.lt_succ_self i),
          List.getElem?_set_self']
        cases results[i]? <;> simp [validated_slot, hval]
    | succ k' =>
      simp only [List.getElem?_cons_succ] at hk
      have harith : i + (k' + 1) = (i + 1) + k' := by omega
      have hne : i ≠ i + (k' + 1) := by omega
      simp only [validate_loop]
      cases validate_split s0 dur with
      | valid a b =>
        rw [harith, ih (i + 1) results _ k' s hk]
      | invalidRange =>
        rw [harith, ih (i + 1) _ _ k' s hk, ← harith, List.getElem?_set_ne hne]
      | parseError msg =>
        rw [harith, ih (i + 1) _ _ k' s hk, ← harith, List.getElem?_set_ne hne]

theorem expected_valid_ord_ge (dur : PyFloat) (l : List SegmentRequest) :
    ∀ (i : ℕ) (v : ValidSplit), v ∈ expected_valid dur i l → i ≤ v.1 := by
  induction l with
  | nil => intro i v hv; simp [expected_valid] at hv
  | cons s rest ih =>
    intro i v hv
    simp only [expected_valid] at hv
    cases hval : validate_split s dur with
    | valid a b =>
      rw [hval] at hv
      rcases List.mem_cons.mp hv with h | h
      · subst h; exact le_refl i
      · exact Nat.le_of_succ_le (ih (i + 1) v h)
    | invalidRange =>
      rw [hval] at hv
      exact Nat.le_of_succ_le (ih (i + 1) v hv)
    | parseError msg =>
      rw [hval] at hv
      exact Nat.le_of_succ_le (ih (i + 1) v hv)

theorem expected_valid_chain (dur : PyFloat) (l : List SegmentRequest) :
    ∀ (i : ℕ), List.Chain' (fun x y : ValidSplit => x.1 < y.1) (expected_valid dur i l) := by
  induction l with
  | nil => intro i; simp [expected_valid]
  | cons s rest ih =>
    intro i
    simp only [expected_valid]
    cases hval : validate_split s dur with
    | valid a b =>
      refine List.chain'_cons'.mpr ⟨?_, ih (i + 1)⟩
      intro y hy
      have := expected_valid_ord_ge dur rest (i + 1) y (List.mem_of_mem_head? hy)
      omega
    | invalidRange => exact ih (i + 1)
    | parseError msg => exact ih (i + 1)

theorem expected_valid_mem (dur : PyFloat) (l : List SegmentRequest) :
    ∀ (i : ℕ) (v : ValidSplit), v ∈ expected_valid dur i l →
      ∃ (k : ℕ), l[k]? = some v.2.2.2 ∧ v.1 = i + k ∧
        validate_split v.2.2.2 dur = SplitOutcome.valid v.2.1 v.2.2.1 := by
  induction l with
  | nil => intro i v hv; simp [expected_valid] at hv
  | cons s rest ih =>
    intro i v hv
    simp only [expected_valid] at hv
    cases hval : validate_split s dur with
    | valid a b =>
      rw [hval] at hv
      rcases List.mem_cons.mp hv with h | h
      · subst h
        exact ⟨0, by simp, by simp, hval⟩
      · obtain ⟨k, hk, hik, hv2⟩ := ih (i + 1) v h
        exact ⟨k + 1, by simpa using hk, by omega, hv2⟩
    | invalidRange =>
      rw [hval] at hv
      obtain ⟨k, hk, hik, hv2⟩ := ih (i + 1) v hv
      exact ⟨k + 1, by simpa using hk, by omega, hv2⟩
    | parseError msg =>
      rw [hval] at hv
      obtain ⟨k, hk, hik, hv2⟩ := ih (i + 1) v hv
      exact ⟨k + 1, by simpa using hk, by omega, hv2⟩

theorem expected_valid_mem_intro (dur : PyFloat) (l : List SegmentRequest) :
    ∀ (i k : ℕ) (s : SegmentRequest) (a b : PyFloat), l[k]? = some s →
      validate_split s dur = SplitOutcome.valid a b →
      (i + k, a, b, s) ∈ expected_valid dur i l := by
  induction l with
  | nil => intro i k s a b hk _; simp at hk
  | cons s0 rest ih =>
    intro i k s a b hk hval
    cases k with
    | zero =>
      simp only [List.getElem?_cons_zero, Option.some.injEq] at hk
      subst hk
      simp only [expected_valid, hval, Nat.add_zero]
      exact List.mem_cons_self _ _
    | succ k' =>
      simp only [List.getElem?_cons_succ] at hk
      have := ih (i + 1) k' s a b hk hval
      have harith : i + (k' + 1) = (i + 1) + k' := by omega
      rw [harith]
      simp only [expected_valid]
      cases hval0 : validate_split s0 dur with
      | valid a0 b0 => exact List.mem_cons_of_mem _ this
      | invalidRange => exact this
      | parseError msg => exact this

theorem expected_valid_nil_of_none_valid (dur : PyFloat) (l : List SegmentRequest) :
    ∀ (i : ℕ), (∀ s ∈ l, (validate_split s dur).isValid = false) →
      expected_valid dur i l = [] := by
  induction l with
  | nil => intro i _; simp [expected_valid]
  | cons s rest ih =>
    intro i h
    have hs := h s (List.mem_cons_self s rest)
    simp only [expected_valid]
    cases hval : validate_split s dur with
    | valid a b => rw [hval] at hs; simp [SplitOutcome.isValid] at hs
    | invalidRange => exact ih (i + 1) fun x hx => h x (List.mem_cons_of_mem s hx)
    | parseError msg => exact ih (i + 1) fun x hx => h x (List.mem_cons_of_mem s hx)

theorem encode_loop_length (storage job_id ext : String)
    (enc : ℕ → Except String EncodeOutcome) (vs : List ValidSplit) :
    ∀ (results : List SegmentResult) (fs : List String),
      ((encode_loop storage job_id ext enc vs results fs).1).length = results.length := by
  induction vs with
  | nil => intro results fs; simp [encode_loop]
  | cons v rest ih =>
    intro results fs
    simp only [encode_loop]
    cases enc v.1 with
    | error e => rfl
    | ok p =>
      by_cases hp : p.returncode ≠ 0 <;> simp [hp, ih]

theorem encode_loop_get_notmem (storage job_id ext : String)
    (enc : ℕ → Except String EncodeOutcome) (vs : List ValidSplit) :
    ∀ (results : List SegmentResult) (fs : List String) (j : ℕ),
      j ∉ vs.map (fun v : ValidSplit => v.1) →
      ((encode_loop storage job_id ext enc vs results fs).1)[j]? = results[j]? := by
  induction vs with
  | nil => intro results fs j _; simp [encode_loop]
  | cons v rest ih =>
    intro results fs j hj
    simp only [List.map_cons, List.mem_cons, not_or] at hj
    obtain ⟨hj1, hj2⟩ := hj
    have hne : v.1 ≠ j := fun h => hj1 h.symm
    simp only [encode_loop]
    cases enc v.1 with
    | error e => rfl
    | ok p =>
      by_cases hp : p.returncode ≠ 0 <;>
        simp [hp, ih _ _ j hj2, List.getElem?_set_ne hne]

theorem encode_loop_get_mem (storage job_id ext : String)
    (enc : ℕ → Except String EncodeOutcome) (vs : List ValidSplit) :
    ∀ (results : List SegmentResult) (fs : List String) (v : ValidSplit),
      v ∈ vs →
      vs.Pairwise (fun x y : ValidSplit => x.1 ≠ y.1) →
      (∀ p, enc v.1 ≠ Except.error p) →
      (encode_loop storage job_id ext enc vs results fs).2.2 = none →
      ∃ p, enc v.1 = Except.ok p ∧
        ((encode_loop storage job_id ext enc vs results fs).1)[v.1]? =
          (results[v.1]?).map (fun _ => encoded_slot storage job_id ext p v.1) := by
  induction vs with
  | nil => intro results fs v hv; simp at hv
  | cons v0 rest ih =>
    intro results fs v hv hpair hnoerr hnoraise
    have hpair' := List.pairwise_cons.mp hpair
    rcases List.mem_cons.mp hv with h | h
    · subst h
      simp only [encode_loop] at hnoraise ⊢
      cases hencv : enc v.1 with
      | error e => exact absurd hencv (hnoerr e)
      | ok p =>
        dsimp only
        refine ⟨p, rfl, ?_⟩
        have hnotmem : v.1 ∉ rest.map (fun x : ValidSplit => x.1) := by
          intro hmem
          obtain ⟨y, hy, hy2⟩ := List.mem_map.mp hmem
          exact hpair'.1 y hy hy2.symm
        by_cases hp : p.returncode ≠ 0
        · rw [if_pos hp, encode_loop_get_notmem storage job_id ext enc rest _ _ _ hnotmem,
            List.getElem?_set_self']
          cases results[v.1]? <;> rfl
        · rw [if_neg hp, encode_loop_get_notmem storage job_id ext enc rest _ _ _ hnotmem,
            List.getElem?_set_self']
          cases results[v.1]? <;> rfl
    · simp only [encode_loop] at hnoraise ⊢
      cases hencv0 : enc v0.1 with
      | error e => rw [hencv0] at hnoraise; simp at hnoraise
      | ok p =>
        rw [hencv0] at hnoraise
        dsimp only at hnoraise ⊢
        have hne : v0.1 ≠ v.1 := hpair'.1 v h
        by_cases hp : p.returncode ≠ 0
        · rw [if_pos hp] at hnoraise ⊢
          obtain ⟨q, hq1, hq2⟩ := ih _ _ v h hpair'.2 hnoerr hnoraise
          refine ⟨q, hq1, ?_⟩
          rw [hq2, List.getElem?_set_ne hne]
        · rw [if_neg hp] at hnoraise ⊢
          obtain ⟨q, hq1, hq2⟩ := ih _ _ v h hpair'.2 hnoerr hnoraise
          refine ⟨q, hq1, ?_⟩
          rw [hq2, List.getElem?_set_ne hne]

theorem output_filename_ne_empty (storage job_id : String) (n : ℕ) (ext : String) :
    output_filename storage job_id n ext ≠ "" := by
  intro h
  have h2 := congrArg String.length h
  simp only [output_filename, String.length_append] at h2
  have h3 : String.length "/" = 1 := rfl
  have h4 : String.length "" = 0 := rfl
  omega

theorem mem_remove_ok_output (r : SegmentResult) (acc : List String) (f : String) :
    f ∈ remove_ok_output acc r → f ∈ acc := by
  intro hf
  simp only [remove_ok_output] at hf
  split at hf
  · split at hf
    · split at hf
      · exact (List.mem_filter.mp hf).1
      · exact hf
    · exact hf
  · exact hf

theorem mem_foldl_remove_ok_output (results : List SegmentResult) :
    ∀ (acc : List String) (f : String),
      f ∈ results.foldl remove_ok_output acc → f ∈ acc := by
  induction results with
  | nil => intro acc f hf; simpa using hf
  | cons r rest ih =>
    intro acc f hf
    exact mem_remove_ok_output r acc f (ih _ f hf)

theorem cleanup_subset (input : String) (results : List SegmentResult)
    (fs : List String) (f : String) :
    f ∈ cleanup_on_failure input results fs → f ∈ fs := by
  intro hf
  have h1 := mem_foldl_remove_ok_output results _ f hf
  by_cases hin : input ∈ fs
  · rw [cleanup_on_failure, if_pos hin] at hf
    exact (List.mem_filter.mp (mem_foldl_remove_ok_output results _ f hf)).1
  · rw [cleanup_on_failure, if_neg hin] at hf
    exact mem_foldl_remove_ok_output results _ f hf

theorem input_notin_cleanup (input : String) (results : List SegmentResult)
    (fs : List String) : input ∉ cleanup_on_failure input results fs := by
  intro hf
  by_cases hin : input ∈ fs
  · rw [cleanup_on_failure, if_pos hin] at hf
    have := (List.mem_filter.mp (mem_foldl_remove_ok_output results _ input hf)).2
    simp at this
  · rw [cleanup_on_failure, if_neg hin] at hf
    exact hin (mem_foldl_remove_ok_output results _ input hf)

theorem ok_output_notin_foldl (p : String) (hp : p ≠ "") :
    ∀ (results : List SegmentResult) (r : SegmentResult), r ∈ results →
      r.status = "ok" → r.output_file = some p →
      ∀ (acc : List String), p ∉ results.foldl remove_ok_output acc := by
  intro results
  induction results with
  | nil => intro r hr; simp at hr
  | cons r0 rest ih =>
    intro r hr hok hout acc hmem
    rcases List.mem_cons.mp hr with h | h
    · subst h
      have hstep : p ∉ remove_ok_output acc r := by
        simp only [remove_ok_output, hok, if_pos, hout]
        by_cases hin : p ∈ acc
        · rw [if_pos (by simp [hp, hin])]
          intro hc
          have := (List.mem_filter.mp hc).2
          simp at this
        · rw [if_neg (by simp [hp, hin])]
          exact hin
      exact hstep (mem_foldl_remove_ok_output rest _ p hmem)
    · exact ih r h hok hout (remove_ok_output acc r0) hmem

theorem ok_output_notin_cleanup (input : String) (results : List SegmentResult)
    (fs : List String) (r : SegmentResult) (p : String) :
    r ∈ results → r.status = "ok" → r.output_file = some p → p ≠ "" →
    p ∉ cleanup_on_failure input results fs := by
  intro hr hok hout hp
  rw [cleanup_on_failure]
  exact ok_output_notin_foldl p hp results r hr hok hout _

theorem encode_loop_raise_source (storage job_id ext : String)
    (enc : ℕ → Except String EncodeOutcome) (vs : List ValidSplit) :
    ∀ (results results' : List SegmentResult) (fs fs' : List String) (e : String),
      encode_loop storage job_id ext enc vs results fs = (results', fs', some e) →
      ∃ j, enc j = Except.error e := by
  induction vs with
  | nil => intro results results' fs fs' e h; simp [encode_loop] at h
  | cons v rest ih =>
    intro results results' fs fs' e h
    simp only [encode_loop] at h
    cases hencv : enc v.1 with
    | error e0 =>
      rw [hencv] at h
      dsimp only at h
      have he : some e0 = some e := congrArg (fun t => t.2.2) h
      exact ⟨v.1, by rw [hencv, Option.some.inj he]⟩
    | ok p =>
      rw [hencv] at h
      dsimp only at h
      by_cases hp : p.returncode ≠ 0
      · rw [if_pos hp] at h
        exact ih _ _ _ _ e h
      · rw [if_neg hp] at h
        exact ih _ _ _ _ e h

theorem encode_loop_pure_noraise (storage job_id ext : String) (pe : ℕ → EncodeOutcome)
    (vs : List ValidSplit) :
    ∀ (results : List SegmentResult) (fs : List String),
      (encode_loop storage job_id ext (fun j => Except.ok (pe j)) vs results fs).2.2 = none := by
  induction vs with
  | nil => intro results fs; simp [encode_loop]
  | cons v rest ih =>
    intro results fs
    simp only [encode_loop]
    by_cases hp : (pe v.1).returncode ≠ 0
    · rw [if_pos hp]; exact ih _ _
    · rw [if_neg hp]; exact ih _ _

theorem encode_loop_raise_inv (storage job_id ext : String)
    (enc : ℕ → Except String EncodeOutcome) (vs : List ValidSplit) :
    ∀ (results results' : List SegmentResult) (fs fs' : List String) (e : String),
      encode_loop storage job_id ext enc vs results fs = (results', fs', some e) →
      (∀ v ∈ vs, v.1 < results.length) →
      vs.Pairwise (fun x y : ValidSplit => x.1 ≠ y.1) →
      ∀ f ∈ fs', f ∈ fs ∨
        ∃ r ∈ results', r.status = "ok" ∧ r.output_file = some f ∧ f ≠ "" := by
  induction vs with
  | nil => intro results results' fs fs' e h _ _; simp [encode_loop] at h
  | cons v rest ih =>
    intro results results' fs fs' e h hlen hpair
    have hpair' := List.pairwise_cons.mp hpair
    simp only [encode_loop] at h
    cases hencv : enc v.1 with
    | error e0 =>
      rw [hencv] at h
      dsimp only at h
      intro f hf
      left
      have hfs : fs = fs' := congrArg (fun t => t.2.1) h
      rw [hfs]
      exact hf
    | ok p =>
      rw [hencv] at h
      dsimp only at h
      by_cases hp : p.returncode ≠ 0
      · rw [if_pos hp] at h
        refine ih _ _ _ _ e h ?_ hpair'.2
        intro v' hv'
        rw [List.length_set]
        exact hlen v' (List.mem_cons_of_mem v hv')
      · rw [if_neg hp] at h
        intro f hf
        rcases ih _ _ _ _ e h
          (fun v' hv' => by rw [List.length_set]; exact hlen v' (List.mem_cons_of_mem v hv'))
          hpair'.2 f hf with hin | hex
        · rcases List.mem_append.mp hin with hin2 | hin2
          · exact Or.inl hin2
          · right
            have hfeq : f = output_filename storage job_id v.1 ext := by
              simpa using hin2
            subst hfeq
            have hnotmem : v.1 ∉ rest.map (fun x : ValidSplit => x.1) := by
              intro hmem
              obtain ⟨y, hy, hy2⟩ := List.mem_map.mp hmem
              exact hpair'.1 y hy hy2.symm
            have hres' : results' =
                (encode_loop storage job_id ext enc rest
                  (results.set v.1 (encoded_slot storage job_id ext p v.1))
                  (fs ++ [output_filename storage job_id v.1 ext])).1 :=
              (congrArg (fun t => t.1) h).symm
            have hget : results'[v.1]? =
                some (encoded_slot storage job_id ext p v.1) := by
              rw [hres', encode_loop_get_notmem storage job_id ext enc rest _ _ _ hnotmem]
              exact List.getElem?_set_self (hlen v (List.mem_cons_self v rest))
            refine ⟨encoded_slot storage job_id ext p v.1,
              List.mem_iff_getElem?.mpr ⟨v.1, hget⟩, ?_, ?_, ?_⟩
            · simp [encoded_slot, hp]
            · simp [encoded_slot, hp]
            · exact output_filename_ne_empty storage job_id v.1 ext
        · exact Or.inr hex

theorem initial_results_get (splits : List SegmentRequest) (i : ℕ) :
    (initial_results splits)[i]? = (splits[i]?).map (fun _ => unprocessed) := by
  simp only [initial_results]
  rw [List.getElem?_map]

theorem validated_slot_eq_expected (storage job_id ext : String) (dur : PyFloat)
    (pe : ℕ → EncodeOutcome) (i : ℕ) (s : SegmentRequest)
    (h : (validate_split s dur).isValid = false) :
    validated_slot dur unprocessed s = expected_result storage job_id ext dur pe i s := by
  rw [validated_slot, expected_result]
  cases hval : validate_split s dur with
  | valid a b => rw [hval] at h; simp [SplitOutcome.isValid] at h
  | invalidRange => rfl
  | parseError msg => rfl

theorem expected_valid_pairwise_ne (dur : PyFloat) (l : List SegmentRequest) :
    ∀ (i : ℕ), (expected_valid dur i l).Pairwise (fun x y : ValidSplit => x.1 ≠ y.1) := by
  induction l with
  | nil => intro i; simp [expected_valid]
  | cons s rest ih =>
    intro i
    simp only [expected_valid]
    cases hval : validate_split s dur with
    | valid a b =>
      refine List.pairwise_cons.mpr ⟨?_, ih (i + 1)⟩
      intro y hy
      have := expected_valid_ord_ge dur rest (i + 1) y hy
      simp only
      omega
    | invalidRange => exact ih (i + 1)
    | parseError msg => exact ih (i + 1)

theorem expected_result_valid (storage job_id ext : String) (dur : PyFloat)
    (pe : ℕ → EncodeOutcome) (i : ℕ) (s : SegmentRequest) (a b : PyFloat)
    (h : validate_split s dur = SplitOutcome.valid a b) :
    expected_result storage job_id ext dur pe i s =
      encoded_slot storage job_id ext (pe i) i := by
  unfold expected_result
  rw [h]

/-- Characterization of `split_video` when the probe completed (any stdout)
and every `ffmpeg` invocation completed (any exit codes): the call returns
normally, the results list is aligned with the input `splits` list, and
slot `i` holds exactly the outcome determined by `splits[i]`'s own
validation and `ffmpeg` outcome. -/
theorem split_video_run_pure_spec (storage : String) (splits : List SegmentRequest)
    (job_id input stdout : String) (pe : ℕ → EncodeOutcome) (fs : List String) :
    ∃ (results : List SegmentResult) (fs' : List String),
      split_video_run storage splits job_id input (Except.ok stdout)
        (fun j => Except.ok (pe j)) fs = (fs', Except.ok (results, input))
      ∧ results.length = splits.length
      ∧ ∀ (i : ℕ) (s : SegmentRequest), splits[i]? = some s →
          results[i]? = some (expected_result storage job_id (splitext input).2
            (file_duration_from stdout) pe i s) := by
  set dur := file_duration_from stdout with hdur
  set ext := (splitext input).2 with hext
  set enc : ℕ → Except String EncodeOutcome := fun j => Except.ok (pe j) with henc
  obtain ⟨results1, vs, hvl⟩ :
      ∃ r v, validate_loop dur 0 splits (initial_results splits) [] = (r, v) :=
    ⟨_, _, rfl⟩
  have hvs : vs = expected_valid dur 0 splits := by
    have := validate_loop_vs dur splits 0 (initial_results splits) []
    rw [hvl] at this
    simpa using this
  have hlen1 : results1.length = splits.length := by
    have := validate_loop_length dur splits 0 (initial_results splits) []
    rw [hvl] at this
    simpa [initial_results] using this
  have hget1 : ∀ (i : ℕ) (s : SegmentRequest), splits[i]? = some s →
      results1[i]? = some (validated_slot dur unprocessed s) := by
    intro i s hi
    have := validate_loop_get dur splits 0 (initial_results splits) [] i s hi
    rw [hvl] at this
    simp only [Nat.zero_add] at this
    rw [this, initial_results_get, hi]
    rfl
  have hnotvalid : ∀ (i : ℕ) (s : SegmentRequest), splits[i]? = some s →
      (validate_split s dur).isValid = true →
      ∃ a b, validate_split s dur = SplitOutcome.valid a b ∧ (i, a, b, s) ∈ vs := by
    intro i s hi hv
    cases hval : validate_split s dur with
    | valid a b =>
      refine ⟨a, b, rfl, ?_⟩
      rw [hvs]
      have := expected_valid_mem_intro dur splits 0 i s a b hi hval
      simpa using this
    | invalidRange => rw [hval] at hv; simp [SplitOutcome.isValid] at hv
    | parseError msg => rw [hval] at hv; simp [SplitOutcome.isValid] at hv
  have hnotmem_of_invalid : ∀ (i : ℕ) (s : SegmentRequest), splits[i]? = some s →
      (validate_split s dur).isValid = false →
      i ∉ vs.map (fun v : ValidSplit => v.1) := by
    intro i s hi hv hmem
    obtain ⟨v, hvmem, hv1⟩ := List.mem_map.mp hmem
    rw [hvs] at hvmem
    obtain ⟨k, hk, hik, hval⟩ := expected_valid_mem dur splits 0 v hvmem
    rw [Nat.zero_add] at hik
    rw [hv1] at hik
    subst hik
    rw [hi] at hk
    have hs : v.2.2.2 = s := (Option.some.inj hk).symm
    rw [hs] at hval
    rw [hval] at hv
    simp [SplitOutcome.isValid] at hv
  simp only [split_video_run]
  rw [hvl]
  dsimp only
  by_cases hvse : vs = []
  · rw [if_pos hvse]
    refine ⟨results1, fs, rfl, hlen1, ?_⟩
    intro i s hi
    rw [hget1 i s hi]
    congr 1
    apply validated_slot_eq_expected
    cases hvb : (validate_split s dur).isValid
    · rfl
    · obtain ⟨a, b, -, hmem⟩ := hnotvalid i s hi hvb
      rw [hvse] at hmem
      simp at hmem
  · rw [if_neg hvse]
    obtain ⟨results2, fs2, o, hE⟩ :
        ∃ r f o, encode_loop storage job_id ext enc vs results1 fs = (r, f, o) :=
      ⟨_, _, _, rfl⟩
    have ho : o = none := by
      have := encode_loop_pure_noraise storage job_id ext pe vs results1 fs
      rw [← henc, hE] at this
      exact this
    subst ho
    rw [hE]
    dsimp only
    have hlen2 : results2.length = splits.length := by
      have := encode_loop_length storage job_id ext enc vs results1 fs
      rw [hE] at this
      dsimp at this
      rw [this, hlen1]
    refine ⟨results2, fs2, rfl, hlen2, ?_⟩
    intro i s hi
    cases hvb : (validate_split s dur).isValid
    · have hnm := hnotmem_of_invalid i s hi hvb
      have := encode_loop_get_notmem storage job_id ext enc vs results1 fs i hnm
      rw [hE] at this
      dsimp at this
      rw [this, hget1 i s hi]
      congr 1
      exact validated_slot_eq_expected storage job_id ext dur pe i s hvb
    · obtain ⟨a, b, hval, hmem⟩ := hnotvalid i s hi hvb
      have hpair : vs.Pairwise (fun x y : ValidSplit => x.1 ≠ y.1) := by
        rw [hvs]; exact expected_valid_pairwise_ne dur splits 0
      have hnoerr : ∀ q, enc (i, a, b, s).1 ≠ Except.error q := by
        intro q hq
        rw [henc] at hq
        exact Except.noConfusion hq
      have hnr : (encode_loop storage job_id ext enc vs results1 fs).2.2 = none := by
        rw [hE]
      obtain ⟨p, hp1, hp2⟩ :=
        encode_loop_get_mem storage job_id ext enc vs results1 fs (i, a, b, s)
          hmem hpair hnoerr hnr
      have hpe : p = pe i := by
        rw [henc] at hp1
        exact (Except.ok.inj hp1).symm
      rw [hE] at hp2
      dsimp at hp2
      rw [hp2, hget1 i s hi, hpe]
      rw [expected_result_valid storage job_id ext dur pe i s a b hval]
      rfl

theorem response_item_fields (upload : String → Except String String) (idx : ℕ)
    (r : SegmentResult) (s : SegmentRequest) (fs : List String) :
    (response_item upload idx r s fs).1.index = idx
    ∧ (response_item upload idx r s fs).1.start = s.start
    ∧ (response_item upload idx r s fs).1.end_ = s.end_ := by
  rw [response_item]
  cases r.output_file with
  | none => exact ⟨rfl, rfl, rfl⟩
  | some of =>
    dsimp only
    by_cases hc : r.status = "ok" ∧ of ≠ ""
    · rw [if_pos hc]
      cases upload of <;> exact ⟨rfl, rfl, rfl⟩
    · rw [if_neg hc]
      exact ⟨rfl, rfl, rfl⟩

theorem build_response_length (upload : String → Except String String)
    (pairs : List (SegmentResult × SegmentRequest)) :
    ∀ (idx : ℕ) (fs : List String),
      ((build_response upload idx pairs fs).1).length = pairs.length := by
  induction pairs with
  | nil => intro idx fs; simp [build_response]
  | cons p rest ih =>
    intro idx fs
    obtain ⟨r, s⟩ := p
    simp only [build_response]
    simp [ih]

theorem build_response_get (upload : String → Except String String)
    (pairs : List (SegmentResult × SegmentRequest)) :
    ∀ (idx k : ℕ) (fs : List String) (r : SegmentResult) (s : SegmentRequest),
      pairs[k]? = some (r, s) →
      ∃ it, ((build_response upload idx pairs fs).1)[k]? = some it ∧
        it.index = idx + k ∧ it.start = s.start ∧ it.end_ = s.end_ := by
  induction pairs with
  | nil => intro idx k fs r s hk; simp at hk
  | cons p rest ih =>
    intro idx k fs r s hk
    obtain ⟨r0, s0⟩ := p
    cases k with
    | zero =>
      simp only [List.getElem?_cons_zero, Option.some.injEq] at hk
      have hr : r0 = r ∧ s0 = s := Prod.mk.inj hk
      simp only [build_response]
      refine ⟨(response_item upload idx r0 s0 fs).1, by simp, ?_⟩
      obtain ⟨h1, h2, h3⟩ := response_item_fields upload idx r0 s0 fs
      rw [h1, h2, h3, hr.2]
      exact ⟨(Nat.add_zero idx).symm, rfl, rfl⟩
    | succ k' =>
      simp only [List.getElem?_cons_succ] at hk
      obtain ⟨it, hit, h1, h2, h3⟩ := ih (idx + 1) k' _ r s hk
      refine ⟨it, ?_, by omega, h2, h3⟩
      simp only [build_response]
      simpa using hit

theorem notin_filter_self (a : String) (l : List String) :
    a ∉ l.filter (· ≠ a) := by
  intro h
  have := (List.mem_filter.mp h).2
  simp at this

theorem split_video_run_ok_inv (storage : String) (splits : List SegmentRequest)
    (job_id input : String) (probe : Except String String)
    (enc : ℕ → Except String EncodeOutcome) (fs fs1 : List String)
    (results : List SegmentResult) (inp : String)
    (h : split_video_run storage splits job_id input probe enc fs
        = (fs1, Except.ok (results, inp))) :
    inp = input ∧ results.length = splits.length := by
  simp only [split_video_run] at h
  cases probe with
  | error e =>
    dsimp only at h
    exact Except.noConfusion (congrArg (fun t => t.2) h)
  | ok stdout =>
    dsimp only at h
    obtain ⟨results1, vs, hvl⟩ :
        ∃ r v, validate_loop (file_duration_from stdout) 0 splits
          (initial_results splits) [] = (r, v) := ⟨_, _, rfl⟩
    rw [hvl] at h
    dsimp only at h
    have hlen1 : results1.length = splits.length := by
      have := validate_loop_length (file_duration_from stdout) splits 0
        (initial_results splits) []
      rw [hvl] at this
      simpa [initial_results] using this
    by_cases hvse : vs = []
    · rw [if_pos hvse] at h
      have h2 : Except.ok (ε := String) (results1, input) = Except.ok (results, inp) :=
        congrArg (fun t => t.2) h
      have h3 : results1 = results ∧ input = inp := Prod.mk.inj (Except.ok.inj h2)
      exact ⟨h3.2.symm, h3.1 ▸ hlen1⟩
    · rw [if_neg hvse] at h
      obtain ⟨r2, f2, o, hE⟩ :
          ∃ r f o, encode_loop storage job_id (splitext input).2 enc vs results1 fs
            = (r, f, o) := ⟨_, _, _, rfl⟩
      rw [hE] at h
      cases o with
      | none =>
        dsimp only at h
        have h2 : Except.ok (ε := String) (r2, input) = Except.ok (results, inp) :=
          congrArg (fun t => t.2) h
        have h3 : r2 = results ∧ input = inp := Prod.mk.inj (Except.ok.inj h2)
        have hlen2 : r2.length = results1.length := by
          have := encode_loop_length storage job_id (splitext input).2 enc vs results1 fs
          rw [hE] at this
          exact this
        refine ⟨h3.2.symm, ?_⟩
        rw [← h3.1, hlen2, hlen1]
      | some e =>
        dsimp only at h
        exact Except.noConfusion (congrArg (fun t => t.2) h)

/-- C5: the timestamp parser maps `"01:02:03.5"` to 3723.5, `"02:30"` to
150.0 and `"45"` to 45.0; three colon-separated fields parse as int-hours,
int-minutes, float-seconds, two fields as int-minutes, float-seconds, and
otherwise the whole string parses as a float; every failing conversion
raises a parse error carrying the offending string and the
expected-format hint. -/
theorem C5_timestamp_formats :
    (time_to_seconds "01:02:03.5" = Except.ok (PyFloat.finite 37235 10)
      ∧ PyFloat.toRat (PyFloat.finite 37235 10) = some 3723.5)
    ∧ (time_to_seconds "02:30" = Except.ok (PyFloat.finite 150 1)
      ∧ PyFloat.toRat (PyFloat.finite 150 1) = some 150)
    ∧ (time_to_seconds "45" = Except.ok (PyFloat.finite 45 1)
      ∧ PyFloat.toRat (PyFloat.finite 45 1) = some 45)
    ∧ time_to_seconds "abc"
        = Except.error "Invalid time format: abc. Expected HH:MM:SS[.mmm]"
    ∧ (∀ (s f1 f2 f3 : String) (H M : ℤ) (S : PyFloat),
        pySplit s = [f1, f2, f3] → pyInt f1 = some H → pyInt f2 = some M →
        pyFloat f3 = some S →
        time_to_seconds s = Except.ok (PyFloat.addIntL (H * 3600 + M * 60) S))
    ∧ (∀ (s f1 f2 : String) (M : ℤ) (S : PyFloat),
        pySplit s = [f1, f2] → pyInt f1 = some M → pyFloat f2 = some S →
        time_to_seconds s = Except.ok (PyFloat.addIntL (M * 60) S))
    ∧ (∀ (s : String) (V : PyFloat),
        (pySplit s).length ≠ 3 → (pySplit s).length ≠ 2 → pyFloat s = some V →
        time_to_seconds s = Except.ok V)
    ∧ (∀ (s e : String), time_to_seconds s = Except.error e →
        e = "Invalid time format: " ++ s ++ ". Expected HH:MM:SS[.mmm]") := by
  refine ⟨⟨by decide, by norm_num [PyFloat.toRat]⟩,
    ⟨by decide, by norm_num [PyFloat.toRat]⟩,
    ⟨by decide, by norm_num [PyFloat.toRat]⟩,
    by decide, ?_, ?_, ?_, ?_⟩
  · intro s f1 f2 f3 H M S hsp h1 h2 h3
    simp only [time_to_seconds, hsp, h1, h2, h3]
  · intro s f1 f2 M S hsp h1 h2
    simp only [time_to_seconds, hsp, h1, h2]
  · intro s V h3 h2 hV
    simp only [time_to_seconds]
    rcases hsp : pySplit s with _ | ⟨a, _ | ⟨b, _ | ⟨c, _ | ⟨d, l⟩⟩⟩⟩
    · simp [hV]
    · simp [hV]
    · exact absurd (by simp [hsp]) h2
    · exact absurd (by simp [hsp]) h3
    · simp [hV]
  · intro s e h
    simp only [time_to_seconds] at h
    split at h
    · split at h
      · exact Except.noConfusion h
      · exact (Except.error.inj h).symm
    · split at h
      · exact Except.noConfusion h
      · exact (Except.error.inj h).symm
    · split at h
      · exact Except.noConfusion h
      · exact (Except.error.inj h).symm

/-- Witness for C5 at a concrete three-field input. -/
theorem C5_timestamp_formats_witness :
    time_to_seconds "7:08:09"
      = Except.ok (PyFloat.addIntL (7 * 3600 + 8 * 60) (PyFloat.finite 9 1)) :=
  (C5_timestamp_formats).2.2.2.2.1 "7:08:09" "7" "08" "09" 7 8 (PyFloat.finite 9 1)
    (by decide) (by decide) (by decide) (by decide)

/-- C10: the parser accepts, without raising, strings outside the
documented formats whenever Python numeric conversion succeeds — negative
or out-of-range fields, scientific notation, and non-finite spellings —
and a segment whose start or end is `"nan"` is rejected by the
`start < end` range check (the NaN comparison is false), recorded with the
"Invalid split" message, not as a parse error. -/
theorem C10_lenient_numeric_inputs :
    (time_to_seconds "0:-30" = Except.ok (PyFloat.finite (-30) 1)
      ∧ PyFloat.toRat (PyFloat.finite (-30) 1) = some (-30))
    ∧ (time_to_seconds "0:90" = Except.ok (PyFloat.finite 90 1)
      ∧ PyFloat.toRat (PyFloat.finite 90 1) = some 90)
    ∧ (time_to_seconds "1e3" = Except.ok (PyFloat.finite 1000 1)
      ∧ PyFloat.toRat (PyFloat.finite 1000 1) = some 1000)
    ∧ time_to_seconds "inf" = Except.ok PyFloat.inf
    ∧ time_to_seconds "nan" = Except.ok PyFloat.nan
    ∧ validate_split { start := "nan", end_ := "10" } (PyFloat.finite 60 1)
        = SplitOutcome.invalidRange
    ∧ validate_split { start := "0", end_ := "nan" } (PyFloat.finite 60 1)
        = SplitOutcome.invalidRange
    ∧ (split_video_run "/st" [{ start := "nan", end_ := "10" }] "job"
        "/st/job_input.mp4" (Except.ok "60.0") (fun _ => Except.ok ⟨0, ""⟩)
        ["/st/job_input.mp4"]).2
      = Except.ok ([{ status := "error"
                      output_file := none
                      error := some "Invalid split: start (nan) must be before end (10) within duration" }],
        "/st/job_input.mp4") := by
  refine ⟨⟨by decide, by norm_num [PyFloat.toRat]⟩,
    ⟨by decide, by norm_num [PyFloat.toRat]⟩,
    ⟨by decide, by norm_num [PyFloat.toRat]⟩,
    by decide, by decide, by decide, by decide, by decide⟩

/-- C6: for a segment whose start and end both parse, a negative start is
clamped to 0 and an end beyond the probed duration is clamped to the
duration, and the validation outcome is decided solely by the
`start < end` check on the clamped values — clamping itself never records
an error. -/
theorem C6_clamping (s : SegmentRequest) (dur start0 end0 : PyFloat)
    (hs : time_to_seconds s.start = Except.ok start0)
    (he : time_to_seconds s.end_ = Except.ok end0) :
    (PyFloat.lt start0 (PyFloat.finite 0 1) = true →
      (if PyFloat.lt start0 (PyFloat.finite 0 1) then PyFloat.finite 0 1 else start0)
        = PyFloat.finite 0 1)
    ∧ (PyFloat.gt end0 dur = true →
      (if PyFloat.gt end0 dur then dur else end0) = dur)
    ∧ validate_split s dur =
        (if PyFloat.lt
            (if PyFloat.lt start0 (PyFloat.finite 0 1) then PyFloat.finite 0 1 else start0)
            (if PyFloat.gt end0 dur then dur else end0)
          then SplitOutcome.valid
            (if PyFloat.lt start0 (PyFloat.finite 0 1) then PyFloat.finite 0 1 else start0)
            (if PyFloat.gt end0 dur then dur else end0)
          else SplitOutcome.invalidRange) := by
  refine ⟨fun h => by rw [if_pos h], fun h => by rw [if_pos h], ?_⟩
  simp only [validate_split, hs, he]

/-- Witness for C6: `start = "-5"` is clamped to 0 and the segment is
accepted against `end = "3"`. -/
theorem C6_clamping_witness :
    validate_split { start := "-5", end_ := "3" } (PyFloat.finite 10 1)
      = SplitOutcome.valid (PyFloat.finite 0 1) (PyFloat.finite 3 1) := by
  have h := (C6_clamping { start := "-5", end_ := "3" } (PyFloat.finite 10 1)
    (PyFloat.finite (-5) 1) (PyFloat.finite 3 1) (by decide) (by decide)).2.2
  rw [h]
  decide

theorem validate_split_invalid (s : SegmentRequest) (dur start0 end0 : PyFloat)
    (hs : time_to_seconds s.start = Except.ok start0)
    (he : time_to_seconds s.end_ = Except.ok end0)
    (hlt : PyFloat.lt
        (if PyFloat.lt start0 (PyFloat.finite 0 1) then PyFloat.finite 0 1 else start0)
        (if PyFloat.gt end0 dur then dur else end0) = false) :
    validate_split s dur = SplitOutcome.invalidRange := by
  simp only [validate_split, hs, he]
  simp [hlt]

/-- C7: a segment whose clamped start is not strictly below its clamped
end is never passed to the encoder (its ordinal is absent from the
accepted list) and its result slot carries status error, no output path,
and the "Invalid split: start (...) must be before end (...) within
duration" message built from the raw request strings. -/
theorem C7_range_rejected (storage : String) (splits : List SegmentRequest)
    (job_id input stdout : String) (pe : ℕ → EncodeOutcome) (fs : List String)
    (i : ℕ) (s : SegmentRequest) (start0 end0 : PyFloat)
    (hi : splits[i]? = some s)
    (hs : time_to_seconds s.start = Except.ok start0)
    (he : time_to_seconds s.end_ = Except.ok end0)
    (hlt : PyFloat.lt
        (if PyFloat.lt start0 (PyFloat.finite 0 1) then PyFloat.finite 0 1 else start0)
        (if PyFloat.gt end0 (file_duration_from stdout) then file_duration_from stdout
          else end0) = false) :
    (∃ (results : List SegmentResult) (fs' : List String),
      split_video_run storage splits job_id input (Except.ok stdout)
        (fun j => Except.ok (pe j)) fs = (fs', Except.ok (results, input))
      ∧ results[i]? = some
          { status := "error"
            output_file := none
            error := some ("Invalid split: start (" ++ s.start ++ ") must be before end ("
              ++ s.end_ ++ ") within duration") })
    ∧ i ∉ (expected_valid (file_duration_from stdout) 0 splits).map
        (fun v : ValidSplit => v.1) := by
  have hval := validate_split_invalid s (file_duration_from stdout) start0 end0 hs he hlt
  constructor
  · obtain ⟨results, fs', hrun, hlen, hslots⟩ :=
      split_video_run_pure_spec storage splits job_id input stdout pe fs
    refine ⟨results, fs', hrun, ?_⟩
    rw [hslots i s hi]
    simp only [expected_result, hval, range_error_result]
  · intro hmem
    obtain ⟨v, hvmem, hv1⟩ := List.mem_map.mp hmem
    obtain ⟨k, hk, hik, hval2⟩ :=
      expected_valid_mem (file_duration_from stdout) splits 0 v hvmem
    rw [Nat.zero_add] at hik
    rw [hv1] at hik
    subst hik
    rw [hi] at hk
    have hvs : v.2.2.2 = s := (Option.some.inj hk).symm
    rw [hvs, hval] at hval2
    exact SplitOutcome.noConfusion hval2

/-- Witness for C7: the segment `start = "10"`, `end = "5"` is rejected
and its ordinal 0 is not in the accepted list. -/
theorem C7_range_rejected_witness :
    0 ∉ (expected_valid (file_duration_from "30") 0
        [{ start := "10", end_ := "5" }]).map (fun v : ValidSplit => v.1) :=
  (C7_range_rejected "/st" [{ start := "10", end_ := "5" }] "job" "/st/in.mp4" "30"
    (fun _ => ⟨0, ""⟩) ["/st/in.mp4"] 0 { start := "10", end_ := "5" }
    (PyFloat.finite 10 1) (PyFloat.finite 5 1)
    (by decide) (by decide) (by decide) (by decide)).2

/-- C3: whenever the probe's stdout does not parse as a Python float
(non-numeric, empty, or the output of a failed probe process), the
duration used for validation is the 86400-second fallback sentinel, the
split operation still completes normally, and the fallback only disables
the end-exceeds-duration clamp (ends not above 86400 are left alone). -/
theorem C3_probe_fallback (stdout : String)
    (h : pyFloat (pyStrip stdout) = none) :
    file_duration_from stdout = PyFloat.finite 86400 1
    ∧ (∀ (storage : String) (splits : List SegmentRequest) (job_id input : String)
        (pe : ℕ → EncodeOutcome) (fs : List String),
        ∃ (results : List SegmentResult) (fs' : List String),
          split_video_run storage splits job_id input (Except.ok stdout)
            (fun j => Except.ok (pe j)) fs = (fs', Except.ok (results, input)))
    ∧ (∀ end0 : PyFloat, PyFloat.gt end0 (PyFloat.finite 86400 1) = false →
        (if PyFloat.gt end0 (file_duration_from stdout) then file_duration_from stdout
          else end0) = end0)
    ∧ (∀ s : SegmentRequest, validate_split s (file_duration_from stdout)
        = validate_split s (PyFloat.finite 86400 1)) := by
  have hd : file_duration_from stdout = PyFloat.finite 86400 1 := by
    simp only [file_duration_from, h]
  refine ⟨hd, ?_, ?_, ?_⟩
  · intro storage splits job_id input pe fs
    obtain ⟨results, fs', hrun, -, -⟩ :=
      split_video_run_pure_spec storage splits job_id input stdout pe fs
    exact ⟨results, fs', hrun⟩
  · intro end0 hgt
    rw [hd]
    simp [hgt]
  · intro s
    rw [hd]

/-- Witness for C3 at the unparseable probe output `"N/A"`. -/
theorem C3_probe_fallback_witness :
    pyFloat (pyStrip "N/A") = none
    ∧ file_duration_from "N/A" = PyFloat.finite 86400 1 :=
  ⟨by decide, (C3_probe_fallback "N/A" (by decide)).1⟩

/-- C1: the results list starts as one "Unprocessed" error sentinel per
requested split, and for every probe stdout and every combination of
per-segment encode outcomes the run returns normally with a results list
of the same length as `splits` in which slot `i` is a function of
`splits[i]`'s own validation outcome and of `ffmpeg` outcome `i` alone. -/
theorem C1_aligned_results (storage : String) (splits : List SegmentRequest)
    (job_id input stdout : String) (pe : ℕ → EncodeOutcome) (fs : List String) :
    initial_results splits = List.replicate splits.length unprocessed
    ∧ ∃ (results : List SegmentResult) (fs' : List String),
        split_video_run storage splits job_id input (Except.ok stdout)
          (fun j => Except.ok (pe j)) fs = (fs', Except.ok (results, input))
        ∧ results.length = splits.length
        ∧ ∀ (i : ℕ) (s : SegmentRequest), splits[i]? = some s →
            results[i]? = some (expected_result storage job_id (splitext input).2
              (file_duration_from stdout) pe i s) := by
  constructor
  · simp only [initial_results]
    exact List.map_const' splits unprocessed
  · obtain ⟨results, fs', hrun, hlen, hslots⟩ :=
      split_video_run_pure_spec storage splits job_id input stdout pe fs
    exact ⟨results, fs', hrun, hlen, hslots⟩

/-- Witness for C1 at a concrete two-segment request (one valid, one
rejected). -/
theorem C1_aligned_results_witness :
    initial_results [{ start := "0", end_ := "5" }, { start := "10", end_ := "5" }]
      = List.replicate
          (List.length [({ start := "0", end_ := "5" } : SegmentRequest),
            { start := "10", end_ := "5" }]) unprocessed
    ∧ ∃ (results : List SegmentResult) (fs' : List String),
        split_video_run "/st" [{ start := "0", end_ := "5" }, { start := "10", end_ := "5" }]
          "job" "/st/in.mp4" (Except.ok "30")
          (fun j => Except.ok ((fun _ => (⟨0, ""⟩ : EncodeOutcome)) j)) ["/st/in.mp4"]
          = (fs', Except.ok (results, "/st/in.mp4"))
        ∧ results.length
            = (List.length [({ start := "0", end_ := "5" } : SegmentRequest),
                { start := "10", end_ := "5" }])
        ∧ ∀ (i : ℕ) (s : SegmentRequest),
            [({ start := "0", end_ := "5" } : SegmentRequest),
              { start := "10", end_ := "5" }][i]? = some s →
            results[i]? = some (expected_result "/st" "job" (splitext "/st/in.mp4").2
              (file_duration_from "30") (fun _ => (⟨0, ""⟩ : EncodeOutcome)) i s) :=
  C1_aligned_results "/st" [{ start := "0", end_ := "5" }, { start := "10", end_ := "5" }]
    "job" "/st/in.mp4" "30" (fun _ => (⟨0, ""⟩ : EncodeOutcome)) ["/st/in.mp4"]

theorem expected_result_congr (storage job_id ext : String) (dur : PyFloat)
    (pe qe : ℕ → EncodeOutcome) (i : ℕ) (s : SegmentRequest)
    (h : pe i = qe i) :
    expected_result storage job_id ext dur pe i s
      = expected_result storage job_id ext dur qe i s := by
  unfold expected_result
  cases validate_split s dur <;> simp [h]

/-- C8: the accepted splits are encoded in strictly increasing original
ordinal order, and the outcome of every slot other than `k` is unchanged
when only `ffmpeg` outcome `k` changes — a failing segment has no effect
on any sibling, and there is no early abort. -/
theorem C8_sequential_isolation (storage : String) (splits : List SegmentRequest)
    (job_id input stdout : String) (pe qe : ℕ → EncodeOutcome) (fs : List String)
    (k : ℕ) (hk : ∀ j, j ≠ k → pe j = qe j) :
    List.Chain' (fun x y : ValidSplit => x.1 < y.1)
      (expected_valid (file_duration_from stdout) 0 splits)
    ∧ ∀ (results results' : List SegmentResult) (fs1 fs1' : List String),
        split_video_run storage splits job_id input (Except.ok stdout)
          (fun j => Except.ok (pe j)) fs = (fs1, Except.ok (results, input)) →
        split_video_run storage splits job_id input (Except.ok stdout)
          (fun j => Except.ok (qe j)) fs = (fs1', Except.ok (results', input)) →
        ∀ j, j ≠ k → results[j]? = results'[j]? := by
  constructor
  · exact expected_valid_chain (file_duration_from stdout) splits 0
  · intro results results' fs1 fs1' h1 h2 j hj
    obtain ⟨rA, fA, hrunA, hlenA, hslotsA⟩ :=
      split_video_run_pure_spec storage splits job_id input stdout pe fs
    obtain ⟨rB, fB, hrunB, hlenB, hslotsB⟩ :=
      split_video_run_pure_spec storage splits job_id input stdout qe fs
    have eA : results = rA :=
      (Prod.mk.inj (Except.ok.inj
        (congrArg (fun t => t.2) (h1.symm.trans hrunA)))).1
    have eB : results' = rB :=
      (Prod.mk.inj (Except.ok.inj
        (congrArg (fun t => t.2) (h2.symm.trans hrunB)))).1
    by_cases hjl : j < splits.length
    · obtain ⟨s, hso⟩ : ∃ s, splits[j]? = some s :=
        ⟨splits.get ⟨j, hjl⟩, by simp [List.getElem?_eq_getElem hjl]⟩
      rw [eA, eB, hslotsA j s hso, hslotsB j s hso,
        expected_result_congr storage job_id (splitext input).2
          (file_duration_from stdout) pe qe j s (hk j hj)]
    · have hge : splits.length ≤ j := Nat.le_of_not_lt hjl
      rw [eA, eB, List.getElem?_eq_none (by rw [hlenA]; exact hge),
        List.getElem?_eq_none (by rw [hlenB]; exact hge)]

/-- Witness for C8: with segment 1 (of 0,1) failing under `pe` and
succeeding under `qe`, slot 0 is identical in both runs. -/
theorem C8_sequential_isolation_witness :
    ([{ status := "ok", output_file := some "/st/job_split_1.mp4", error := none },
      ({ status := "error", output_file := none,
         error := some "FFmpeg error: boom" } : SegmentResult)])[0]?
    = ([{ status := "ok", output_file := some "/st/job_split_1.mp4", error := none },
       ({ status := "ok", output_file := some "/st/job_split_2.mp4",
          error := none } : SegmentResult)])[0]? :=
  (C8_sequential_isolation "/st" [{ start := "0", end_ := "5" }, { start := "6", end_ := "8" }]
    "job" "/st/in.mp4" "30"
    (fun j => if j = 1 then ⟨1, " boom "⟩ else ⟨0, ""⟩)
    (fun _ => ⟨0, ""⟩) ["/st/in.mp4"] 1
    (fun j hj => by simp [hj])).2
    [{ status := "ok", output_file := some "/st/job_split_1.mp4", error := none },
     { status := "error", output_file := none, error := some "FFmpeg error: boom" }]
    [{ status := "ok", output_file := some "/st/job_split_1.mp4", error := none },
     { status := "ok", output_file := some "/st/job_split_2.mp4", error := none }]
    ["/st/in.mp4", "/st/job_split_1.mp4"]
    ["/st/in.mp4", "/st/job_split_1.mp4", "/st/job_split_2.mp4"]
    (by decide) (by decide) 0 (by decide)

theorem validated_slot_error_fields (dur : PyFloat) (s : SegmentRequest) :
    (validated_slot dur unprocessed s).status = "error"
    ∧ (validated_slot dur unprocessed s).output_file = none := by
  rw [validated_slot]
  cases validate_split s dur <;> exact ⟨rfl, rfl⟩

/-- C2: when validation accepts none of the requested splits, `split_video`
still returns the fully populated all-error results list without raising
(for any encode oracle — the encoder is never consulted), the route
answers 200, and the locally acquired source media is removed by the route
handler's cleanup. -/
theorem C2_no_valid_segments (storage : String) (splits : List SegmentRequest)
    (job_id input stdout : String) (enc : ℕ → Except String EncodeOutcome)
    (upload : String → Except String String) (fs : List String)
    (h : ∀ s ∈ splits, (validate_split s (file_duration_from stdout)).isValid = false) :
    ∃ results : List SegmentResult,
      split_video_run storage splits job_id input (Except.ok stdout) enc fs
        = (fs, Except.ok (results, input))
      ∧ results.length = splits.length
      ∧ (∀ r ∈ results, r.status = "error" ∧ r.output_file = none)
      ∧ (video_split_run storage splits job_id input (Except.ok stdout) enc upload fs).2.2
          = 200
      ∧ input ∉ (video_split_run storage splits job_id input (Except.ok stdout) enc upload fs).1 := by
  set dur := file_duration_from stdout with hdur
  have hvnil : expected_valid dur 0 splits = [] :=
    expected_valid_nil_of_none_valid dur splits 0 h
  obtain ⟨results1, vs, hvl⟩ :
      ∃ r v, validate_loop dur 0 splits (initial_results splits) [] = (r, v) :=
    ⟨_, _, rfl⟩
  have hvs : vs = [] := by
    have := validate_loop_vs dur splits 0 (initial_results splits) []
    rw [hvl] at this
    simpa [hvnil] using this
  have hlen1 : results1.length = splits.length := by
    have := validate_loop_length dur splits 0 (initial_results splits) []
    rw [hvl] at this
    simpa [initial_results] using this
  have hrun : split_video_run storage splits job_id input (Except.ok stdout) enc fs
      = (fs, Except.ok (results1, input)) := by
    simp only [split_video_run]
    rw [hvl]
    dsimp only
    rw [if_pos hvs]
  refine ⟨results1, hrun, hlen1, ?_, ?_, ?_⟩
  · intro r hr
    obtain ⟨n, hn⟩ := List.mem_iff_getElem?.mp hr
    have hnl : n < results1.length := (List.getElem?_eq_some_iff.mp hn).1
    rw [hlen1] at hnl
    obtain ⟨s, hso⟩ : ∃ s, splits[n]? = some s :=
      ⟨splits.get ⟨n, hnl⟩, by simp [List.getElem?_eq_getElem hnl]⟩
    have hget := validate_loop_get dur splits 0 (initial_results splits) [] n s hso
    rw [hvl] at hget
    simp only [Nat.zero_add] at hget
    rw [initial_results_get, hso] at hget
    simp only [Option.map_some'] at hget
    have hr2 : r = validated_slot dur unprocessed s :=
      Option.some.inj (hn.symm.trans hget)
    rw [hr2]
    exact validated_slot_error_fields dur s
  · simp only [video_split_run]
    rw [hrun]
  · simp only [video_split_run]
    rw [hrun]
    dsimp only
    obtain ⟨items, fs2, hB⟩ :
        ∃ a b, build_response upload 0 (results1.zip splits) fs = (a, b) := ⟨_, _, rfl⟩
    rw [hB]
    exact notin_filter_self input fs2

/-- Witness for C2 at the concrete request `[{"start":"10","end":"5"}]`. -/
theorem C2_no_valid_segments_witness :
    ∃ results : List SegmentResult,
      split_video_run "/st" [{ start := "10", end_ := "5" }] "job" "/st/in.mp4"
          (Except.ok "30") (fun _ => Except.ok ⟨0, ""⟩) ["/st/in.mp4"]
        = (["/st/in.mp4"], Except.ok (results, "/st/in.mp4"))
      ∧ results.length = (List.length [({ start := "10", end_ := "5" } : SegmentRequest)])
      ∧ (∀ r ∈ results, r.status = "error" ∧ r.output_file = none)
      ∧ (video_split_run "/st" [{ start := "10", end_ := "5" }] "job" "/st/in.mp4"
          (Except.ok "30") (fun _ => Except.ok ⟨0, ""⟩) (fun f => Except.ok f)
          ["/st/in.mp4"]).2.2 = 200
      ∧ "/st/in.mp4" ∉ (video_split_run "/st" [{ start := "10", end_ := "5" }] "job"
          "/st/in.mp4" (Except.ok "30") (fun _ => Except.ok ⟨0, ""⟩)
          (fun f => Except.ok f) ["/st/in.mp4"]).1 :=
  C2_no_valid_segments "/st" [{ start := "10", end_ := "5" }] "job" "/st/in.mp4" "30"
    (fun _ => Except.ok ⟨0, ""⟩) (fun f => Except.ok f) ["/st/in.mp4"] (by decide)

/-- C9: whenever `split_video` returns normally the route handler answers
200 with a full, order-aligned per-segment response (each item carrying
its index and the raw request timestamps), even if every segment failed;
whenever `split_video` raises, the handler answers 500 with the single
exception text. -/
theorem C9_route_outcomes (storage : String) (splits : List SegmentRequest)
    (job_id input : String) (probe : Except String String)
    (enc : ℕ → Except String EncodeOutcome) (upload : String → Except String String)
    (fs : List String) :
    (∀ (fs1 : List String) (results : List SegmentResult) (inp : String),
      split_video_run storage splits job_id input probe enc fs
          = (fs1, Except.ok (results, inp)) →
      ∃ (response : List ResponseItem) (fs2 : List String),
        video_split_run storage splits job_id input probe enc upload fs
            = (fs2, Sum.inl response, 200)
        ∧ response.length = splits.length
        ∧ (∀ (i : ℕ) (s : SegmentRequest), splits[i]? = some s →
            ∃ it, response[i]? = some it ∧ it.index = i ∧ it.start = s.start
              ∧ it.end_ = s.end_))
    ∧ (∀ (fs1 : List String) (e : String),
      split_video_run storage splits job_id input probe enc fs
          = (fs1, Except.error e) →
      video_split_run storage splits job_id input probe enc upload fs
          = (fs1, Sum.inr e, 500)) := by
  constructor
  · intro fs1 results inp h
    obtain ⟨hinp, hlen⟩ :=
      split_video_run_ok_inv storage splits job_id input probe enc fs fs1 results inp h
    subst hinp
    obtain ⟨items, fs2, hB⟩ :
        ∃ a b, build_response upload 0 (results.zip splits) fs1 = (a, b) := ⟨_, _, rfl⟩
    have hroute : video_split_run storage splits job_id inp probe enc upload fs
        = (fs2.filter (· ≠ inp), Sum.inl items, 200) := by
      simp only [video_split_run]
      rw [h]
      dsimp only
      rw [hB]
    refine ⟨items, fs2.filter (· ≠ inp), hroute, ?_, ?_⟩
    · have := build_response_length upload (results.zip splits) 0 fs1
      rw [hB] at this
      dsimp only at this
      rw [this, List.length_zip, hlen, Nat.min_self]
    · intro i s hi
      have hil : i < splits.length := (List.getElem?_eq_some_iff.mp hi).1
      have hir : i < results.length := by rw [hlen]; exact hil
      have hzip : (results.zip splits)[i]? = some (results.get ⟨i, hir⟩, s) := by
        rw [List.getElem?_zip_eq_some]
        exact ⟨by simp [List.getElem?_eq_getElem hir], hi⟩
      obtain ⟨it, hit, h1, h2, h3⟩ :=
        build_response_get upload (results.zip splits) 0 i fs1
          (results.get ⟨i, hir⟩) s hzip
      rw [hB] at hit
      dsimp only at hit
      exact ⟨it, hit, by rw [h1, Nat.zero_add], h2, h3⟩
  · intro fs1 e h
    simp only [video_split_run]
    rw [h]

/-- Witness for C9: a one-segment request whose encode succeeds yields a
200 response aligned with the input. -/
theorem C9_route_outcomes_witness :
    ∃ (response : List ResponseItem) (fs2 : List String),
      video_split_run "/st" [{ start := "0", end_ := "5" }] "job" "/st/in.mp4"
          (Except.ok "30") (fun _ => Except.ok ⟨0, ""⟩)
          (fun f => Except.ok ("https://cdn/" ++ f)) ["/st/in.mp4"]
          = (fs2, Sum.inl response, 200)
      ∧ response.length = (List.length [({ start := "0", end_ := "5" } : SegmentRequest)]) :=
  have h := (C9_route_outcomes "/st" [{ start := "0", end_ := "5" }] "job" "/st/in.mp4"
    (Except.ok "30") (fun _ => Except.ok ⟨0, ""⟩)
    (fun f => Except.ok ("https://cdn/" ++ f)) ["/st/in.mp4"]).1
    ["/st/in.mp4", "/st/job_split_1.mp4"]
    [{ status := "ok", output_file := some "/st/job_split_1.mp4", error := none }]
    "/st/in.mp4" (by decide)
  ⟨h.choose, h.choose_spec.choose, h.choose_spec.choose_spec.1,
    h.choose_spec.choose_spec.2.1⟩

/-- C4: whenever `split_video` ends in a raise (probe or encode invocation
raising outside the per-segment try boundaries), the source media is
absent from the resulting filesystem, no file survives that was not
already present before the call (all outputs recorded `ok` are removed by
the handler, which deletes every ok-recorded, truthy, existing output
path), and the original exception is re-raised to the caller. -/
theorem C4_cleanup_and_reraise (storage : String) (splits : List SegmentRequest)
    (job_id input : String) (probe : Except String String)
    (enc : ℕ → Except String EncodeOutcome) (fs fs' : List String) (e : String)
    (h : split_video_run storage splits job_id input probe enc fs
        = (fs', Except.error e)) :
    input ∉ fs'
    ∧ (∀ f ∈ fs', f ∈ fs)
    ∧ (probe = Except.error e ∨ ∃ j, enc j = Except.error e)
    ∧ (∀ (results : List SegmentResult) (r : SegmentResult) (p : String)
        (fsx : List String), r ∈ results → r.status = "ok" →
        r.output_file = some p → p ≠ "" →
        p ∉ cleanup_on_failure input results fsx) := by
  have hlast : ∀ (results : List SegmentResult) (r : SegmentResult) (p : String)
      (fsx : List String), r ∈ results → r.status = "ok" →
      r.output_file = some p → p ≠ "" →
      p ∉ cleanup_on_failure input results fsx :=
    fun results r p fsx hr hok hout hp =>
      ok_output_notin_cleanup input results fsx r p hr hok hout hp
  simp only [split_video_run] at h
  cases probe with
  | error e0 =>
    dsimp only at h
    have hfs : cleanup_on_failure input (initial_results splits) fs = fs' :=
      congrArg (fun t => t.1) h
    have he : e0 = e := Except.error.inj (congrArg (fun t => t.2) h)
    refine ⟨?_, ?_, Or.inl (by rw [he]), hlast⟩
    · rw [← hfs]
      exact input_notin_cleanup input _ fs
    · intro f hf
      rw [← hfs] at hf
      exact cleanup_subset input _ fs f hf
  | ok stdout =>
    dsimp only at h
    set dur := file_duration_from stdout with hdur
    obtain ⟨results1, vs, hvl⟩ :
        ∃ r v, validate_loop dur 0 splits (initial_results splits) [] = (r, v) :=
      ⟨_, _, rfl⟩
    rw [hvl] at h
    dsimp only at h
    have hvs : vs = expected_valid dur 0 splits := by
      have := validate_loop_vs dur splits 0 (initial_results splits) []
      rw [hvl] at this
      simpa using this
    have hlen1 : results1.length = splits.length := by
      have := validate_loop_length dur splits 0 (initial_results splits) []
      rw [hvl] at this
      simpa [initial_results] using this
    by_cases hvse : vs = []
    · rw [if_pos hvse] at h
      exact absurd (congrArg (fun t => t.2) h) (fun hc => Except.noConfusion hc)
    · rw [if_neg hvse] at h
      obtain ⟨r2, f2, o, hE⟩ :
          ∃ r f o, encode_loop storage job_id (splitext input).2 enc vs results1 fs
            = (r, f, o) := ⟨_, _, _, rfl⟩
      rw [hE] at h
      cases o with
      | none =>
        dsimp only at h
        exact absurd (congrArg (fun t => t.2) h) (fun hc => Except.noConfusion hc)
      | some e0 =>
        dsimp only at h
        have hfs : cleanup_on_failure input r2 f2 = fs' := congrArg (fun t => t.1) h
        have heq : e0 = e := Except.error.inj (congrArg (fun t => t.2) h)
        rw [heq] at hE
        have hbound : ∀ v ∈ vs, v.1 < results1.length := by
          intro v hv
          rw [hvs] at hv
          obtain ⟨k, hk, hik, -⟩ := expected_valid_mem dur splits 0 v hv
          rw [Nat.zero_add] at hik
          have hkl : k < splits.length := (List.getElem?_eq_some_iff.mp hk).1
          rw [hlen1, hik]
          exact hkl
        have hpair : vs.Pairwise (fun x y : ValidSplit => x.1 ≠ y.1) := by
          rw [hvs]
          exact expected_valid_pairwise_ne dur splits 0
        have hinv := encode_loop_raise_inv storage job_id (splitext input).2 enc vs
          results1 r2 fs f2 e hE hbound hpair
        refine ⟨?_, ?_, ?_, hlast⟩
        · rw [← hfs]
          exact input_notin_cleanup input r2 f2
        · intro f hf
          rw [← hfs] at hf
          have hf2 : f ∈ f2 := cleanup_subset input r2 f2 f hf
          rcases hinv f hf2 with hin | ⟨r, hrmem, hrok, hrout, hpne⟩
          · exact hin
          · exact absurd hf (ok_output_notin_cleanup input r2 f2 r f hrmem hrok hrout hpne)
        · right
          exact encode_loop_raise_source storage job_id (splitext input).2 enc vs
            results1 r2 fs f2 e hE

/-- Witness for C4: a one-segment request whose `ffmpeg` invocation raises
leaves a filesystem without the source file. -/
theorem C4_cleanup_and_reraise_witness :
    "/st/in.mp4" ∉ ([] : List String)
    ∧ (∀ f ∈ ([] : List String), f ∈ ["/st/in.mp4"]) :=
  have hc := C4_cleanup_and_reraise "/st" [{ start := "0", end_ := "5" }] "J"
    "/st/in.mp4" (Except.ok "30") (fun _ => Except.error "boom") ["/st/in.mp4"] []
    "boom" (by decide)
  ⟨hc.1, hc.2.1⟩
